import Mathlib

/-!
Shallow embedding of `bus/uploadingsectors.go` (the upload session registry
`uploadingSectorsCache`) and, modelled from the spec, the autopilot scanner's
pagination loop and the `minRecentScanFailures` downtime policy function.

Modelling choices:
* `api.UploadID`, `types.FileContractID` and `types.Hash256` are opaque
  fixed-size identifiers; they are modelled as `Nat`.  The Go zero value
  `types.FileContractID{}` is modelled as `0`.
* Go maps are modelled as association lists with unique keys maintained by
  `setKey` (overwrite-on-insert) and `eraseKey` (delete).
* `time.Time` / `time.Duration` are modelled as `Nat` nanoseconds; the current
  instant `now` is passed explicitly to every operation that reads the clock.
  `time.Since(t) < d` becomes `now - t < d` (truncated subtraction agrees with
  Go here: a negative elapsed duration is below any positive bound).
-/

namespace Renterd

abbrev UploadID := Nat
abbrev FileContractID := Nat
abbrev Hash256 := Nat

/-- `rhp.SectorSize` from `go.sia.tech/core/rhp/v2`: 4 MiB. -/
def SectorSize : Nat := 4194304

/-- `cacheExpiry`: 24 hours, in nanoseconds. -/
def cacheExpiry : Nat := 86400000000000

/-- Overwrite-or-append insertion into an association list, the model of a Go
map assignment `m[k] = v`. -/
def setKey {α : Type} (m : List (Nat × α)) (k : Nat) (v : α) : List (Nat × α) :=
  match m with
  | [] => [(k, v)]
  | (k', v') :: rest => if k' = k then (k, v) :: rest else (k', v') :: setKey rest k v

/-- Deletion from an association list, the model of Go `delete(m, k)`. -/
def eraseKey {α : Type} (m : List (Nat × α)) (k : Nat) : List (Nat × α) :=
  m.filter (fun p => p.1 != k)

deriving instance DecidableEq for Except

/-- The errors of `api`: `ErrUnknownUpload` and `ErrUploadAlreadyExists`. -/
inductive ApiError where
  | ErrUnknownUpload
  | ErrUploadAlreadyExists
deriving DecidableEq, Repr

/-- `ongoingUpload`: start timestamp plus the per-contract ordered sector
lists. -/
structure OngoingUpload where
  started : Nat
  contractSectors : List (FileContractID × List Hash256)
deriving DecidableEq, Repr

/-- `uploadingSectorsCache`: the tracked sessions and the two inverse renewal
maps. -/
structure UploadingSectorsCache where
  uploads : List (UploadID × OngoingUpload)
  renewedFrom : List (FileContractID × FileContractID)
  renewedTo : List (FileContractID × FileContractID)
deriving DecidableEq, Repr

/-- `newUploadingSectorsCache`. -/
def newUploadingSectorsCache : UploadingSectorsCache :=
  { uploads := [], renewedFrom := [], renewedTo := [] }

/-- `ongoingUpload.addSector`: `ou.contractSectors[fcid] = append(..., root)`. -/
def OngoingUpload.addSector (ou : OngoingUpload) (fcid : FileContractID)
    (root : Hash256) : OngoingUpload :=
  let roots := ((ou.contractSectors.lookup fcid).getD []) ++ [root]
  { ou with contractSectors := setKey ou.contractSectors fcid roots }

/-- `ongoingUpload.sectors`: the copied list when the entry exists and the
upload has not soft-expired, empty otherwise. -/
def OngoingUpload.sectors (ou : OngoingUpload) (fcid : FileContractID)
    (now : Nat) : List Hash256 :=
  match ou.contractSectors.lookup fcid with
  | some roots => if now - ou.started < cacheExpiry then roots else []
  | none => []

namespace UploadingSectorsCache

/-- `uploadingSectorsCache.fcids`: resolve a contract id against the renewal
maps, returning (newest id, immediate predecessor).  A missing `renewedFrom`
entry yields the Go zero value, modelled as `0`. -/
def fcids (c : UploadingSectorsCache) (fcid : FileContractID) :
    FileContractID × FileContractID :=
  match c.renewedTo.lookup fcid with
  | some renewed => (renewed, fcid)
  | none => (fcid, (c.renewedFrom.lookup fcid).getD 0)

/-- `uploadingSectorsCache.addRenewal`: prune the grandparent edge, then insert
the new pair of inverse edges. -/
def addRenewal (c : UploadingSectorsCache) (fcid renewedFrom : FileContractID) :
    UploadingSectorsCache :=
  let c' :=
    match c.renewedFrom.lookup renewedFrom with
    | some prev =>
        { c with renewedTo := eraseKey c.renewedTo prev,
                 renewedFrom := eraseKey c.renewedFrom renewedFrom }
    | none => c
  { c' with renewedFrom := setKey c'.renewedFrom fcid renewedFrom,
            renewedTo := setKey c'.renewedTo renewedFrom fcid }

/-- `uploadingSectorsCache.addUploadingSector`: append when the session exists,
`ErrUnknownUpload` otherwise.  No clock is consulted. -/
def addUploadingSector (c : UploadingSectorsCache) (uID : UploadID)
    (fcid : FileContractID) (root : Hash256) :
    Except ApiError UploadingSectorsCache :=
  match c.uploads.lookup uID with
  | some ongoing =>
      .ok { c with uploads := setKey c.uploads uID (ongoing.addSector fcid root) }
  | none => .error .ErrUnknownUpload

/-- `uploadingSectorsCache.pending`: resolved pair of ids, then the sector
counts of every session under both ids, scaled by the sector size. -/
def pending (c : UploadingSectorsCache) (fcid : FileContractID) (now : Nat) : Nat :=
  ((c.uploads.map (fun q =>
      ((q.2.sectors (c.fcids fcid).1 now).length
        + (q.2.sectors (c.fcids fcid).2 now).length) * SectorSize)).sum)

/-- `uploadingSectorsCache.sectors`: same traversal as `pending`, returning the
concatenated root lists. -/
def sectors (c : UploadingSectorsCache) (fcid : FileContractID) (now : Nat) :
    List Hash256 :=
  ((c.uploads.map (fun q =>
      q.2.sectors (c.fcids fcid).1 now ++ q.2.sectors (c.fcids fcid).2 now)).flatten)

/-- `uploadingSectorsCache.finishUpload`: delete the session, then sweep every
session whose start lies strictly more than `cacheExpiry` in the past. -/
def finishUpload (c : UploadingSectorsCache) (uID : UploadID) (now : Nat) :
    UploadingSectorsCache :=
  let remaining :=
    (eraseKey c.uploads uID).filter
      (fun p => !(decide (cacheExpiry < now - p.2.started)))
  { c with uploads := remaining }

/-- `uploadingSectorsCache.trackUpload`: `ErrUploadAlreadyExists` when tracked,
otherwise register the session with `started = now` and an empty sector map. -/
def trackUpload (c : UploadingSectorsCache) (uID : UploadID) (now : Nat) :
    Except ApiError UploadingSectorsCache :=
  match c.uploads.lookup uID with
  | some _ => .error .ErrUploadAlreadyExists
  | none =>
      .ok { c with uploads :=
              setKey c.uploads uID { started := now, contractSectors := [] } }

end UploadingSectorsCache

/-- Modelled from the spec: `minRecentScanFailures(scanInterval, maxDowntime)`
of `autopilot/scanner.go`, whose implementation is not part of the sources
here (only its test is).  The spec fixes the literal table
(scan interval = 1 day: 2 weeks → 10, 1 week → 5, 1 day → 1, 1 hour → 0),
requires 0 whenever `maxTolerableDowntime` is smaller than one scan interval,
and monotonicity; any interpolation consistent with that is an implementation
choice.  Durations are `Nat` nanoseconds; the branch below rounds
`(5/7) * maxDowntime / scanInterval` to the nearest integer. -/
def minRecentScanFailures (scanInterval maxDowntime : Nat) : Nat :=
  if maxDowntime < scanInterval then 0
  else (10 * maxDowntime + 7 * scanInterval) / (14 * scanInterval)

/-- One nanosecond-denominated hour, day and week, matching `time.Hour` etc. -/
def nsHour : Nat := 3600000000000

def nsDay : Nat := 24 * nsHour

def nsWeek : Nat := 7 * nsDay

/-- Modelled from the spec: the number of hosts the paginated host-listing
collaborator returns for a request at `offset` with page size `limit` against
a population of `numHosts` hosts (mirrors `mockBus.Hosts`: empty past the end,
truncated at the end). -/
def hostsPage (numHosts offset limit : Nat) : Nat :=
  if numHosts < offset then 0 else min limit (numHosts - offset)

/-- Modelled from the spec: the page requests `(offset, limit)` issued by the
scanner's paging loop in `autopilot/scanner.go`, whose implementation is not
part of the sources here (only its test is).  The spec's sweep pages through
the host listing in fixed-size batches starting at offset 0, advancing the
offset by the batch size, and stops after the first page that comes back
shorter than the batch size.  `fuel` bounds the recursion. -/
def scanRequestsAux (numHosts batchSize : Nat) : Nat → Nat → List (Nat × Nat)
  | 0, _ => []
  | fuel + 1, offset =>
      (offset, batchSize) ::
        (if hostsPage numHosts offset batchSize < batchSize then []
         else scanRequestsAux numHosts batchSize fuel (offset + batchSize))

/-- Modelled from the spec: the full request trace of one sweep.  The worker
pool size `scanThreads` is taken as an argument because the spec routes pages
to a pool of that many workers, but the paging loop itself never consults it. -/
def scanRequests (_scanThreads numHosts batchSize : Nat) : List (Nat × Nat) :=
  scanRequestsAux numHosts batchSize (numHosts + 1) 0

/-- Left fold of `ongoingUpload.addSector` over an append trace: the sequence
of sector pushes one session performs. -/
def applySectors (ou : OngoingUpload) (tr : List (FileContractID × Hash256)) :
    OngoingUpload :=
  tr.foldl (fun o p => o.addSector p.1 p.2) ou

/-- Left fold of `uploadingSectorsCache.addUploadingSector` over a trace of
sector pushes; a failing push (unknown session) leaves the cache unchanged,
as in the Go code where the method returns an error without mutating. -/
def applyUploadingSectors (c : UploadingSectorsCache)
    (tr : List (UploadID × FileContractID × Hash256)) : UploadingSectorsCache :=
  tr.foldl (fun c q =>
    match c.addUploadingSector q.1 q.2.1 q.2.2 with
    | .ok c' => c'
    | .error _ => c) c

/-- A reachable cache state: one live session holding one sector under
contract 1, and a renewal edge recording that contract 3 renews contract 2.
It equals the result of `addRenewal(3, 2)`, `trackUpload(10)` at time 0 and
`addUploadingSector(10, 1, 5)` from the empty cache, which the theorem using
it re-establishes. -/
def renewedTwiceCache : UploadingSectorsCache :=
  { uploads := [(10, { started := 0, contractSectors := [(1, [5])] })],
    renewedFrom := [(3, 2)],
    renewedTo := [(2, 3)] }

/-- A cache holding a single session that was tracked at time 0 and has one
sector under contract 1.  Read at time 0 the session is live; read at
`2 * cacheExpiry` it is soft-expired but still physically present. -/
def singleSessionCache : UploadingSectorsCache :=
  { uploads := [(10, { started := 0, contractSectors := [(1, [5])] })],
    renewedFrom := [],
    renewedTo := [] }

/-- A cache holding one session that performed the append trace
`[(1, 5), (2, 6), (1, 7)]` from a fresh session tracked at time 0. -/
def threeAppendCache : UploadingSectorsCache :=
  { uploads := [(10, applySectors { started := 0, contractSectors := [] }
        [(1, 5), (2, 6), (1, 7)])],
    renewedFrom := [],
    renewedTo := [] }

/-- A cache holding two live sessions tracked at time 0, each with one sector
under contract 1. -/
def twoSessionCache : UploadingSectorsCache :=
  { uploads := [(10, { started := 0, contractSectors := [(1, [5])] }),
                (11, { started := 0, contractSectors := [(1, [6])] })],
    renewedFrom := [],
    renewedTo := [] }

/-! ## Association-list and traversal lemmas -/

theorem lookup_cons {α : Type} (q a : Nat) (b : α) (rest : List (Nat × α)) :
    List.lookup q ((a, b) :: rest) = if q = a then some b else List.lookup q rest := by
  by_cases h : q = a
  · subst h; simp [List.lookup]
  · have hb : (q == a) = false := beq_eq_false_iff_ne.mpr h
    simp [List.lookup, hb, h]

theorem lookup_setKey_self {α : Type} (m : List (Nat × α)) (k : Nat) (v : α) :
    (setKey m k v).lookup k = some v := by
  induction m with
  | nil => simp [setKey, lookup_cons]
  | cons p rest ih =>
    obtain ⟨k', v'⟩ := p
    by_cases h : k' = k
    · simp [setKey, h, lookup_cons]
    · simp [setKey, h, lookup_cons, Ne.symm h, ih]

theorem lookup_setKey_ne {α : Type} (m : List (Nat × α)) (k k' : Nat) (v : α)
    (h : k' ≠ k) : (setKey m k v).lookup k' = m.lookup k' := by
  induction m with
  | nil => simp [setKey, lookup_cons, h]
  | cons p rest ih =>
    obtain ⟨a, b⟩ := p
    by_cases ha : a = k
    · subst ha
      simp [setKey, lookup_cons, h]
    · simp only [setKey, if_neg ha, lookup_cons]
      by_cases ha' : k' = a
      · simp [ha']
      · simp [ha', ih]

theorem lookup_eraseKey_self {α : Type} (m : List (Nat × α)) (k : Nat) :
    (eraseKey m k).lookup k = none := by
  induction m with
  | nil => simp [eraseKey]
  | cons p rest ih =>
    obtain ⟨a, b⟩ := p
    by_cases ha : a = k
    · simpa [eraseKey, ha] using ih
    · simpa [eraseKey, lookup_cons, ha, Ne.symm ha] using ih

theorem lookup_eraseKey_ne {α : Type} (m : List (Nat × α)) (k k' : Nat)
    (h : k' ≠ k) : (eraseKey m k).lookup k' = m.lookup k' := by
  induction m with
  | nil => simp [eraseKey]
  | cons p rest ih =>
    obtain ⟨a, b⟩ := p
    have ih' : List.lookup k' (List.filter (fun p => p.1 != k) rest)
        = List.lookup k' rest := by
      simpa [eraseKey] using ih
    by_cases ha : a = k
    · subst ha
      simpa [eraseKey, lookup_cons, h] using ih'
    · by_cases ha' : k' = a
      · simp [eraseKey, ha, lookup_cons, ha']
      · simp [eraseKey, ha, lookup_cons, ha', ih']

theorem sectors_eq_if (ou : OngoingUpload) (fcid : FileContractID) (now : Nat) :
    ou.sectors fcid now
      = if now - ou.started < cacheExpiry
        then (ou.contractSectors.lookup fcid).getD [] else [] := by
  cases h : ou.contractSectors.lookup fcid <;>
    simp [OngoingUpload.sectors, h]

theorem started_addSector (ou : OngoingUpload) (fcid : FileContractID)
    (root : Hash256) : (ou.addSector fcid root).started = ou.started := rfl

theorem started_applySectors (tr : List (FileContractID × Hash256)) :
    ∀ ou : OngoingUpload, (applySectors ou tr).started = ou.started := by
  induction tr with
  | nil => intro ou; rfl
  | cons p tr ih =>
    intro ou
    simpa [applySectors, List.foldl_cons] using ih (ou.addSector p.1 p.2)

theorem lookup_addSector (ou : OngoingUpload) (f fcid : FileContractID)
    (root : Hash256) :
    ((ou.addSector f root).contractSectors.lookup fcid).getD []
      = if f = fcid
        then ((ou.contractSectors.lookup fcid).getD []) ++ [root]
        else (ou.contractSectors.lookup fcid).getD [] := by
  by_cases h : f = fcid
  · subst h
    simp [OngoingUpload.addSector, lookup_setKey_self]
  · simp [OngoingUpload.addSector, h, lookup_setKey_ne _ _ _ _ (Ne.symm h)]

theorem applySectors_lookup (tr : List (FileContractID × Hash256)) :
    ∀ (ou : OngoingUpload) (fcid : FileContractID),
    ((applySectors ou tr).contractSectors.lookup fcid).getD []
      = ((ou.contractSectors.lookup fcid).getD [])
          ++ (tr.filter (fun p => p.1 == fcid)).map Prod.snd := by
  induction tr with
  | nil => intro ou fcid; simp [applySectors]
  | cons p tr ih =>
    intro ou fcid
    have hstep : applySectors ou (p :: tr) = applySectors (ou.addSector p.1 p.2) tr := by
      simp [applySectors, List.foldl_cons]
    rw [hstep, ih]
    by_cases h : p.1 = fcid
    · simp [lookup_addSector, h, List.filter_cons, List.append_assoc]
    · simp [lookup_addSector, h, List.filter_cons]

theorem flatten_map_filter {α β : Type} (l : List α) (p : α → Bool)
    (f : α → List β) (h : ∀ a ∈ l, p a = false → f a = []) :
    (((l.filter p).map f).flatten) = ((l.map f).flatten) := by
  induction l with
  | nil => rfl
  | cons a t ih =>
    have ht : ∀ x ∈ t, p x = false → f x = [] := fun x hx => h x (List.mem_cons_of_mem a hx)
    cases hp : p a with
    | true => simp [List.filter_cons, hp, ih ht]
    | false =>
      simp [List.filter_cons, hp, ih ht, h a (List.mem_cons_self a t) hp]

theorem sum_map_filter {α : Type} (l : List α) (p : α → Bool)
    (g : α → Nat) (h : ∀ a ∈ l, p a = false → g a = 0) :
    (((l.filter p).map g).sum) = ((l.map g).sum) := by
  induction l with
  | nil => rfl
  | cons a t ih =>
    have ht : ∀ x ∈ t, p x = false → g x = 0 := fun x hx => h x (List.mem_cons_of_mem a hx)
    cases hp : p a with
    | true => simp [List.filter_cons, hp, ih ht]
    | false =>
      simp [List.filter_cons, hp, ih ht, h a (List.mem_cons_self a t) hp]

theorem sum_mul_len {α : Type} (l : List α) (f g : α → List Hash256) :
    ((l.map (fun a => ((f a).length + (g a).length) * SectorSize)).sum)
      = SectorSize * (((l.map (fun a => f a ++ g a)).flatten).length) := by
  induction l with
  | nil => simp
  | cons a t ih =>
    simp only [List.map_cons, List.sum_cons, List.flatten_cons,
      List.length_append, ih]
    ring

theorem applyUploadingSectors_renewals
    (tr : List (UploadID × FileContractID × Hash256)) :
    ∀ c : UploadingSectorsCache,
    (applyUploadingSectors c tr).renewedFrom = c.renewedFrom
      ∧ (applyUploadingSectors c tr).renewedTo = c.renewedTo := by
  induction tr with
  | nil => intro c; exact ⟨rfl, rfl⟩
  | cons q tr ih =>
    intro c
    have hstep :
        applyUploadingSectors c (q :: tr)
          = applyUploadingSectors
              (match c.addUploadingSector q.1 q.2.1 q.2.2 with
               | .ok c' => c'
               | .error _ => c) tr := by
      simp [applyUploadingSectors, List.foldl_cons]
    rw [hstep]
    cases hl : c.uploads.lookup q.1 with
    | some ou =>
      simpa [UploadingSectorsCache.addUploadingSector, hl] using
        ih { c with uploads := setKey c.uploads q.1 (ou.addSector q.2.1 q.2.2) }
    | none =>
      simpa [UploadingSectorsCache.addUploadingSector, hl] using ih c

/-! ## Claim theorems -/

/-- C2: `addUploadingSector` fails with `ErrUnknownUpload` exactly when the
session id is absent from the tracked-session map (never tracked, or removed
by `finishUpload`), `trackUpload` fails with `ErrUploadAlreadyExists` exactly
when the id is currently tracked, and in all other cases both succeed. -/
theorem session_lifecycle_error_contract (c : UploadingSectorsCache)
    (uID : UploadID) (fcid : FileContractID) (root : Hash256) (now : Nat) :
    (c.addUploadingSector uID fcid root = Except.error ApiError.ErrUnknownUpload
        ↔ c.uploads.lookup uID = none)
    ∧ ((∃ c', c.addUploadingSector uID fcid root = Except.ok c')
        ↔ (c.uploads.lookup uID).isSome)
    ∧ (c.trackUpload uID now = Except.error ApiError.ErrUploadAlreadyExists
        ↔ (c.uploads.lookup uID).isSome)
    ∧ ((∃ c', c.trackUpload uID now = Except.ok c')
        ↔ c.uploads.lookup uID = none) := by
  cases h : c.uploads.lookup uID <;>
    simp [UploadingSectorsCache.addUploadingSector,
      UploadingSectorsCache.trackUpload, h]

/-- C4: from the empty registry, `addRenewal(B, A)` followed by
`addRenewal(C, B)` leaves exactly the single entry C↦B in `renewedFrom` and
exactly the single entry B↦C in `renewedTo`; A's edges are pruned. -/
theorem addRenewal_chain_pruning (A B C : FileContractID) :
    ((newUploadingSectorsCache.addRenewal B A).addRenewal C B).renewedFrom
        = [(C, B)]
    ∧ ((newUploadingSectorsCache.addRenewal B A).addRenewal C B).renewedTo
        = [(B, C)] := by
  simp [newUploadingSectorsCache, UploadingSectorsCache.addRenewal,
    setKey, eraseKey, lookup_cons, List.lookup]

/-- C10: for every cache state, contract id and instant, `pending` equals the
fixed sector size times the length of the list `sectors` returns — both
perform the same traversal and the same renewal resolution. -/
theorem pending_eq_sectorSize_mul_sectors (c : UploadingSectorsCache)
    (fcid : FileContractID) (now : Nat) :
    c.pending fcid now = SectorSize * (c.sectors fcid now).length := by
  simpa [UploadingSectorsCache.pending, UploadingSectorsCache.sectors] using
    sum_mul_len c.uploads
      (fun q => q.2.sectors (c.fcids fcid).1 now)
      (fun q => q.2.sectors (c.fcids fcid).2 now)

/-- C8: the literal table of `minRecentScanFailures` at a one-day scan
interval — 2 weeks ↦ 10, 1 week ↦ 5, 1 day ↦ 1, 1 hour ↦ 0 — and the general
zero rule whenever the tolerable downtime is below one scan interval
(modelled from the spec, the implementation not being among the sources). -/
theorem minRecentScanFailures_table :
    minRecentScanFailures nsDay (2 * nsWeek) = 10
    ∧ minRecentScanFailures nsDay nsWeek = 5
    ∧ minRecentScanFailures nsDay nsDay = 1
    ∧ minRecentScanFailures nsDay nsHour = 0
    ∧ ∀ scanInterval maxDowntime : Nat, maxDowntime < scanInterval →
        minRecentScanFailures scanInterval maxDowntime = 0 := by
  refine ⟨by decide, by decide, by decide, by decide, ?_⟩
  intro si md h
  simp [minRecentScanFailures, h]

theorem minRecentScanFailures_table_witness :
    nsHour < nsDay ∧ minRecentScanFailures nsDay nsHour = 0 :=
  ⟨by decide, minRecentScanFailures_table.2.2.2.2 nsDay nsHour (by decide)⟩

/-- C9: a sweep over 100 hosts with batch size 40 issues exactly the three
page requests (0, 40), (40, 40), (80, 40) — the last page coming back with
only 20 of the 40 requested hosts — for every worker-pool size
(modelled from the spec, the implementation not being among the sources). -/
theorem scanner_pagination (scanThreads : Nat) :
    scanRequests scanThreads 100 40 = [(0, 40), (40, 40), (80, 40)]
    ∧ hostsPage 100 0 40 = 40
    ∧ hostsPage 100 40 40 = 40
    ∧ hostsPage 100 80 40 = 20 := by
  refine ⟨?_, by decide, by decide, by decide⟩
  show scanRequestsAux 100 40 101 0 = _
  decide

/-- C3: a session tracked at `t0` that performed the append trace `tr` and is
queried before its expiry contributes, under contract `fcid`, exactly the
hashes appended under `fcid` in submitted order; the cache-level `sectors`
query contains that sequence contiguously (other sessions interleave around,
never inside, it). -/
theorem sectors_append_order (c : UploadingSectorsCache) (uID : UploadID)
    (fcid : FileContractID) (t0 now : Nat)
    (tr : List (FileContractID × Hash256))
    (hlive : now - t0 < cacheExpiry)
    (hmem : (uID, applySectors { started := t0, contractSectors := [] } tr)
        ∈ c.uploads) :
    (applySectors { started := t0, contractSectors := [] } tr).sectors fcid now
        = (tr.filter (fun p => p.1 == fcid)).map Prod.snd
    ∧ ∃ xs ys, c.sectors fcid now
        = xs ++ ((tr.filter (fun p => p.1 == fcid)).map Prod.snd) ++ ys := by
  set ou := applySectors { started := t0, contractSectors := [] } tr with hou
  have hstart : ou.started = t0 := started_applySectors tr _
  have hlook : (ou.contractSectors.lookup fcid).getD []
      = (tr.filter (fun p => p.1 == fcid)).map Prod.snd := by
    simpa [hou] using
      applySectors_lookup tr { started := t0, contractSectors := [] } fcid
  have h1 : ou.sectors fcid now
      = (tr.filter (fun p => p.1 == fcid)).map Prod.snd := by
    rw [sectors_eq_if, hstart, if_pos hlive, hlook]
  refine ⟨h1, ?_⟩
  obtain ⟨l1, l2, hsplit⟩ := List.append_of_mem hmem
  set F := fun q : UploadID × OngoingUpload =>
    q.2.sectors (c.fcids fcid).1 now ++ q.2.sectors (c.fcids fcid).2 now with hF
  have hsec : c.sectors fcid now = ((c.uploads.map F).flatten) := rfl
  cases hTo : c.renewedTo.lookup fcid with
  | some r =>
    have hfc : c.fcids fcid = (r, fcid) := by
      simp [UploadingSectorsCache.fcids, hTo]
    refine ⟨((l1.map F).flatten) ++ ou.sectors r now, ((l2.map F).flatten), ?_⟩
    rw [hsec, hsplit]
    simp [hF, hfc, h1, List.append_assoc]
  | none =>
    have hfc : c.fcids fcid = (fcid, (c.renewedFrom.lookup fcid).getD 0) := by
      simp [UploadingSectorsCache.fcids, hTo]
    refine ⟨((l1.map F).flatten),
      ou.sectors ((c.renewedFrom.lookup fcid).getD 0) now ++ ((l2.map F).flatten), ?_⟩
    rw [hsec, hsplit]
    simp [hF, hfc, h1, List.append_assoc]

theorem sectors_append_order_witness :
    ((0 : Nat) - 0 < cacheExpiry
      ∧ (10, applySectors { started := 0, contractSectors := [] }
            [(1, 5), (2, 6), (1, 7)]) ∈ threeAppendCache.uploads)
    ∧ ((applySectors { started := 0, contractSectors := [] }
          [(1, 5), (2, 6), (1, 7)]).sectors 1 0
        = (([(1, 5), (2, 6), (1, 7)] :
            List (FileContractID × Hash256)).filter (fun p => p.1 == 1)).map Prod.snd
      ∧ ∃ xs ys, threeAppendCache.sectors 1 0
        = xs ++ ((([(1, 5), (2, 6), (1, 7)] :
            List (FileContractID × Hash256)).filter (fun p => p.1 == 1)).map Prod.snd) ++ ys) :=
  ⟨⟨by decide, by decide⟩,
    sectors_append_order threeAppendCache 10 1 0 0 [(1, 5), (2, 6), (1, 7)]
      (by decide) (by decide)⟩

/-- C5 counterexample: a session tracked at time 0 and read 48 hours later is
soft-expired (its `sectors` read returns nothing) yet still physically in the
map, and `addUploadingSector` — which consults no clock at all — still
succeeds on it instead of failing with `ErrUnknownUpload`. -/
theorem addSector_expired_session_cex :
    cacheExpiry < 2 * cacheExpiry - 0
    ∧ (singleSessionCache.uploads.lookup 10).isSome
    ∧ singleSessionCache.sectors 1 (2 * cacheExpiry) = []
    ∧ singleSessionCache.addUploadingSector 10 1 99
        = Except.ok
            { singleSessionCache with
              uploads := [(10, { started := 0, contractSectors := [(1, [5, 99])] })] }
    ∧ singleSessionCache.addUploadingSector 10 1 99
        ≠ Except.error ApiError.ErrUnknownUpload := by decide

/-- C5 amended: `addUploadingSector` consults no clock; it fails with
`ErrUnknownUpload` exactly when the session id is absent from the map, and on
any session still in the map — even one tracked more than 24 hours ago and
not yet swept — it succeeds and appends the sector. -/
theorem addSector_ignores_expiry (c : UploadingSectorsCache) (uID : UploadID)
    (fcid : FileContractID) (root : Hash256) :
    (c.addUploadingSector uID fcid root = Except.error ApiError.ErrUnknownUpload
        ↔ c.uploads.lookup uID = none)
    ∧ ∀ ou, c.uploads.lookup uID = some ou →
        c.addUploadingSector uID fcid root
          = Except.ok
              { c with uploads := setKey c.uploads uID (ou.addSector fcid root) } := by
  constructor
  · cases h : c.uploads.lookup uID <;>
      simp [UploadingSectorsCache.addUploadingSector, h]
  · intro ou h
    simp [UploadingSectorsCache.addUploadingSector, h]

theorem addSector_ignores_expiry_witness :
    singleSessionCache.uploads.lookup 10
        = some { started := 0, contractSectors := [(1, [5])] }
    ∧ singleSessionCache.addUploadingSector 10 1 99
        = Except.ok
            { singleSessionCache with
              uploads := setKey singleSessionCache.uploads 10
                (OngoingUpload.addSector
                  { started := 0, contractSectors := [(1, [5])] } 1 99) } :=
  ⟨by decide,
    (addSector_ignores_expiry singleSessionCache 10 1 99).2
      { started := 0, contractSectors := [(1, [5])] } (by decide)⟩

/-- C6: a session whose start lies more than 24 hours in the past contributes
nothing to `sectors` and `pending` even while it still sits in the map —
reading it is the same as reading the cache with the session erased. -/
theorem soft_expiry_on_read (c : UploadingSectorsCache) (uID : UploadID)
    (fcid : FileContractID) (now : Nat)
    (hexp : ∀ q ∈ c.uploads, q.1 = uID → cacheExpiry < now - q.2.started) :
    (∀ q ∈ c.uploads, q.1 = uID → ∀ f : FileContractID, q.2.sectors f now = [])
    ∧ c.sectors fcid now
        = ({ c with uploads := eraseKey c.uploads uID } :
            UploadingSectorsCache).sectors fcid now
    ∧ c.pending fcid now
        = ({ c with uploads := eraseKey c.uploads uID } :
            UploadingSectorsCache).pending fcid now := by
  have hempty : ∀ q ∈ c.uploads, q.1 = uID →
      ∀ f : FileContractID, q.2.sectors f now = [] := by
    intro q hq hid f
    rw [sectors_eq_if, if_neg]
    have := hexp q hq hid
    omega
  refine ⟨hempty, ?_, ?_⟩
  · have key : ∀ q ∈ c.uploads, ((fun q : UploadID × OngoingUpload => q.1 != uID) q) = false →
        (fun q : UploadID × OngoingUpload =>
          q.2.sectors (c.fcids fcid).1 now ++ q.2.sectors (c.fcids fcid).2 now) q = [] := by
      intro q hq hfalse
      have hid : q.1 = uID := by simpa using hfalse
      simp [hempty q hq hid]
    exact (flatten_map_filter c.uploads _ _ key).symm
  · have key : ∀ q ∈ c.uploads, ((fun q : UploadID × OngoingUpload => q.1 != uID) q) = false →
        (fun q : UploadID × OngoingUpload =>
          ((q.2.sectors (c.fcids fcid).1 now).length
            + (q.2.sectors (c.fcids fcid).2 now).length) * SectorSize) q = 0 := by
      intro q hq hfalse
      have hid : q.1 = uID := by simpa using hfalse
      simp [hempty q hq hid]
    exact (sum_map_filter c.uploads _ _ key).symm

theorem soft_expiry_on_read_witness :
    (∀ q ∈ singleSessionCache.uploads, q.1 = 10 →
      cacheExpiry < 2 * cacheExpiry - q.2.started)
    ∧ ((∀ q ∈ singleSessionCache.uploads, q.1 = 10 →
          ∀ f : FileContractID, q.2.sectors f (2 * cacheExpiry) = [])
      ∧ singleSessionCache.sectors 1 (2 * cacheExpiry)
          = ({ singleSessionCache with
                uploads := eraseKey singleSessionCache.uploads 10 } :
              UploadingSectorsCache).sectors 1 (2 * cacheExpiry)
      ∧ singleSessionCache.pending 1 (2 * cacheExpiry)
          = ({ singleSessionCache with
                uploads := eraseKey singleSessionCache.uploads 10 } :
              UploadingSectorsCache).pending 1 (2 * cacheExpiry)) :=
  ⟨by decide, soft_expiry_on_read singleSessionCache 10 1 (2 * cacheExpiry) (by decide)⟩

/-- C7: `finishUpload(S)` keeps exactly the sessions other than S whose start
is not more than 24 hours old; S's contribution disappears from every
subsequent `sectors`/`pending` query while the swept expired sessions were
contributing nothing anyway, so the reads equal those of the cache with only
S erased. -/
theorem finishUpload_frame (c : UploadingSectorsCache) (uID : UploadID)
    (now : Nat) (fcid : FileContractID) :
    (c.finishUpload uID now).uploads
        = c.uploads.filter
            (fun q => q.1 != uID && !(decide (cacheExpiry < now - q.2.started)))
    ∧ (∀ q ∈ c.uploads, q.1 ≠ uID → now - q.2.started ≤ cacheExpiry →
        q ∈ (c.finishUpload uID now).uploads)
    ∧ (∀ q ∈ (c.finishUpload uID now).uploads, q.1 ≠ uID)
    ∧ (∀ q ∈ (c.finishUpload uID now).uploads, now - q.2.started ≤ cacheExpiry)
    ∧ (c.finishUpload uID now).sectors fcid now
        = ({ c with uploads := eraseKey c.uploads uID } :
            UploadingSectorsCache).sectors fcid now
    ∧ (c.finishUpload uID now).pending fcid now
        = ({ c with uploads := eraseKey c.uploads uID } :
            UploadingSectorsCache).pending fcid now := by
  have h1 : (c.finishUpload uID now).uploads
      = c.uploads.filter
          (fun q => q.1 != uID && !(decide (cacheExpiry < now - q.2.started))) := by
    simp only [UploadingSectorsCache.finishUpload, eraseKey, List.filter_filter]
    exact List.filter_congr (fun q _ => by rw [Bool.and_comm])
  have hemptyExp : ∀ q : UploadID × OngoingUpload,
      cacheExpiry < now - q.2.started → ∀ f : FileContractID,
      q.2.sectors f now = [] := by
    intro q hq f
    rw [sectors_eq_if, if_neg]
    omega
  refine ⟨h1, ?_, ?_, ?_, ?_, ?_⟩
  · intro q hq hne hle
    rw [h1, List.mem_filter]
    refine ⟨hq, ?_⟩
    simp [hne, Nat.not_lt.mpr hle]
  · intro q hq
    rw [h1, List.mem_filter] at hq
    have h2 := hq.2
    simp only [Bool.and_eq_true, bne_iff_ne] at h2
    exact h2.1
  · intro q hq
    rw [h1, List.mem_filter] at hq
    have h2 := hq.2
    simp only [Bool.and_eq_true, Bool.not_eq_true', decide_eq_false_iff_not,
      Nat.not_lt] at h2
    exact h2.2
  · have key : ∀ q ∈ eraseKey c.uploads uID,
        ((fun q : UploadID × OngoingUpload =>
          !(decide (cacheExpiry < now - q.2.started))) q) = false →
        (fun q : UploadID × OngoingUpload =>
          q.2.sectors (c.fcids fcid).1 now ++ q.2.sectors (c.fcids fcid).2 now) q
          = [] := by
      intro q hq hfalse
      have hexp : cacheExpiry < now - q.2.started := by simpa using hfalse
      simp [hemptyExp q hexp]
    exact flatten_map_filter (eraseKey c.uploads uID) _ _ key
  · have key : ∀ q ∈ eraseKey c.uploads uID,
        ((fun q : UploadID × OngoingUpload =>
          !(decide (cacheExpiry < now - q.2.started))) q) = false →
        (fun q : UploadID × OngoingUpload =>
          ((q.2.sectors (c.fcids fcid).1 now).length
            + (q.2.sectors (c.fcids fcid).2 now).length) * SectorSize) q = 0 := by
      intro q hq hfalse
      have hexp : cacheExpiry < now - q.2.started := by simpa using hfalse
      simp [hemptyExp q hexp]
    exact sum_map_filter (eraseKey c.uploads uID) _ _ key

theorem finishUpload_frame_witness :
    (((11 : UploadID), ({ started := 0, contractSectors := [(1, [6])] } : OngoingUpload))
        ∈ twoSessionCache.uploads
      ∧ (11 : UploadID) ≠ 10
      ∧ (0 : Nat) - 0 ≤ cacheExpiry)
    ∧ ((11 : UploadID), ({ started := 0, contractSectors := [(1, [6])] } : OngoingUpload))
        ∈ (twoSessionCache.finishUpload 10 0).uploads :=
  ⟨⟨by decide, by decide, by decide⟩,
    (finishUpload_frame twoSessionCache 10 0 1).2.1
      (11, { started := 0, contractSectors := [(1, [6])] })
      (by decide) (by decide) (by decide)⟩

/-- C1 counterexample: in a reachable state where contract 2 already has its
own renewal edge (contract 3 renews 2, recorded first), calling
`addRenewal(2, 1)` does not make `pending(1)` and `pending(2)` agree: the
query for 2 resolves to the pair (3, 2) while the query for 1 resolves to
(2, 1), so the live session's sector under contract 1 is counted in
`pending(1)` but not in `pending(2)`.  The first conjunct re-derives the
state from the empty cache by `addRenewal(3, 2)`, `trackUpload(10)` and
`addUploadingSector(10, 1, 5)`. -/
theorem renewal_transparency_cex :
    ((newUploadingSectorsCache.addRenewal 3 2).trackUpload 10 0).bind
        (fun c => c.addUploadingSector 10 1 5) = Except.ok renewedTwiceCache
    ∧ (renewedTwiceCache.addRenewal 2 1).pending 1 0 = SectorSize
    ∧ (renewedTwiceCache.addRenewal 2 1).pending 2 0 = 0
    ∧ (renewedTwiceCache.addRenewal 2 1).pending 1 0
        ≠ (renewedTwiceCache.addRenewal 2 1).pending 2 0 := by decide

/-- C1 amended: after `addRenewal(B, A)`, provided B does not itself carry a
renewal edge toward some third contract (its `renewedTo` entry is absent, or
points back to A), every sector held under A or under B by a tracked session
— whether appended before the renewal or afterwards, via any further trace of
`addUploadingSector` calls — is counted in both `pendingBytes(A)` and
`pendingBytes(B)`, and the two values are equal. -/
theorem renewal_transparency (c : UploadingSectorsCache)
    (A B : FileContractID) (now : Nat)
    (tr : List (UploadID × FileContractID × Hash256))
    (hB : (applyUploadingSectors (c.addRenewal B A) tr).renewedTo.lookup B = none
        ∨ (applyUploadingSectors (c.addRenewal B A) tr).renewedTo.lookup B = some A) :
    (applyUploadingSectors (c.addRenewal B A) tr).pending A now
        = (applyUploadingSectors (c.addRenewal B A) tr).pending B now
    ∧ (applyUploadingSectors (c.addRenewal B A) tr).pending A now
        = (((applyUploadingSectors (c.addRenewal B A) tr).uploads.map (fun q =>
            ((q.2.sectors B now).length + (q.2.sectors A now).length)
              * SectorSize)).sum) := by
  set c2 := applyUploadingSectors (c.addRenewal B A) tr with hc2
  have hpres := applyUploadingSectors_renewals tr (c.addRenewal B A)
  rw [← hc2] at hpres
  have hpostTo : (c.addRenewal B A).renewedTo.lookup A = some B := by
    cases hp : c.renewedFrom.lookup A with
    | some prev => simp [UploadingSectorsCache.addRenewal, hp, lookup_setKey_self]
    | none => simp [UploadingSectorsCache.addRenewal, hp, lookup_setKey_self]
  have hpostFrom : (c.addRenewal B A).renewedFrom.lookup B = some A := by
    cases hp : c.renewedFrom.lookup A with
    | some prev => simp [UploadingSectorsCache.addRenewal, hp, lookup_setKey_self]
    | none => simp [UploadingSectorsCache.addRenewal, hp, lookup_setKey_self]
  have hfcA : c2.fcids A = (B, A) := by
    simp [UploadingSectorsCache.fcids, hpres.2, hpostTo]
  have hpendA : c2.pending A now
      = ((c2.uploads.map (fun q =>
          ((q.2.sectors B now).length + (q.2.sectors A now).length)
            * SectorSize)).sum) := by
    simp [UploadingSectorsCache.pending, hfcA]
  cases hB with
  | inl h =>
    have hfcB : c2.fcids B = (B, A) := by
      simp [UploadingSectorsCache.fcids, h, hpres.1, hpostFrom]
    have hpendB : c2.pending B now
        = ((c2.uploads.map (fun q =>
            ((q.2.sectors B now).length + (q.2.sectors A now).length)
              * SectorSize)).sum) := by
      simp [UploadingSectorsCache.pending, hfcB]
    exact ⟨hpendA.trans hpendB.symm, hpendA⟩
  | inr h =>
    have hfcB : c2.fcids B = (A, B) := by
      simp [UploadingSectorsCache.fcids, h]
    have hcomm : (fun q : UploadID × OngoingUpload =>
        ((q.2.sectors A now).length + (q.2.sectors B now).length) * SectorSize)
        = (fun q : UploadID × OngoingUpload =>
        ((q.2.sectors B now).length + (q.2.sectors A now).length) * SectorSize) := by
      funext q
      ring
    have hpendB : c2.pending B now
        = ((c2.uploads.map (fun q =>
            ((q.2.sectors B now).length + (q.2.sectors A now).length)
              * SectorSize)).sum) := by
      simp only [UploadingSectorsCache.pending, hfcB]
      rw [hcomm]
    exact ⟨hpendA.trans hpendB.symm, hpendA⟩

theorem renewal_transparency_witness :
    ((applyUploadingSectors (singleSessionCache.addRenewal 2 1)
        [(10, 2, 7)]).renewedTo.lookup 2 = none)
    ∧ ((applyUploadingSectors (singleSessionCache.addRenewal 2 1)
          [(10, 2, 7)]).pending 1 0
        = (applyUploadingSectors (singleSessionCache.addRenewal 2 1)
          [(10, 2, 7)]).pending 2 0) :=
  ⟨by decide,
    (renewal_transparency singleSessionCache 1 2 0 [(10, 2, 7)]
      (Or.inl (by decide))).1⟩

end Renterd
